import Mathlib

/-!
Verification development for the AgentClinic session driver
(`envs/agentclinic_adapter.py`, class `AgentClinicProcess`).

The driver consumes the character stream of an interactive child process,
classifies output with three regular-expression based matchers
(`PROMPT_TAIL_PAT`, `PATIENT_LINE_PAT`, `END_PATTERNS`), injects replies
from a caller-supplied reply source, counts rounds, and returns the
accumulated transcript.

Text is modelled as `List Char`.  The matchers below are direct shallow
embeddings of the concrete regular expressions of the source, specialised
to the exact patterns that appear there (case-insensitive ASCII matching,
`\s` as the six ASCII whitespace characters, `\d` as the ASCII digits —
the patterns themselves only contain ASCII literals).
-/

namespace AgentClinic

/-- Python `\s` / `str.strip` whitespace, ASCII range. -/
def pyIsSpace (c : Char) : Bool :=
  c = ' ' || c = '\t' || c = '\n' || c = '\r' || c = '\x0b' || c = '\x0c'

/-- Python `str.rstrip()`. -/
def rstrip (s : List Char) : List Char :=
  (s.reverse.dropWhile pyIsSpace).reverse

/-- Python `str.lstrip()`. -/
def lstrip (s : List Char) : List Char :=
  s.dropWhile pyIsSpace

/-- Python `str.strip()`. -/
def strip (s : List Char) : List Char :=
  lstrip (rstrip s)

/-- Python slice `s[-n:]` for a positive literal `n`. -/
def takeLast (n : Nat) (s : List Char) : List Char :=
  s.drop (s.length - n)

/-- Case folding used by `re.IGNORECASE` on the ASCII letters of the patterns. -/
def lc (s : List Char) : List Char :=
  s.map Char.toLower

/-- Case-insensitive literal prefix test. -/
def startsWithCI (s lit : List Char) : Bool :=
  lc (s.take lit.length) = lc lit

/-- Case-insensitive literal suffix removal: if `s` ends with `lit` (up to
case), the part of `s` before it. -/
def dropSuffixCI (s lit : List Char) : Option (List Char) :=
  if lc (s.drop (s.length - lit.length)) = lc lit ∧ lit.length ≤ s.length then
    some (s.take (s.length - lit.length))
  else none

/-- Does `s` end in at least one whitespace character (`\s+` met going left)? -/
def endsWithWs (s : List Char) : Bool :=
  match s.getLast? with
  | some c => pyIsSpace c
  | none => false

/-- Strip a nonempty run of trailing ASCII digits (`\d+` met going left). -/
def dropDigits1 (s : List Char) : Option (List Char) :=
  if (s.reverse.dropWhile Char.isDigit).length < s.length then
    some (s.reverse.dropWhile Char.isDigit).reverse
  else none

/-- Strip a trailing `\[\d+%]` (as in `Doctor [33%]`), returning what precedes
the `[`. -/
def dropBracket (s : List Char) : Option (List Char) :=
  match dropSuffixCI s "%]".data with
  | some r =>
      match dropDigits1 r with
      | some r2 => dropSuffixCI r2 "[".data
      | none => none
  | none => none

/-- Does `t` (already right-stripped) end with the literal `doctor`, up to
case?  This is the `Doctor` alternative of `PROMPT_TAIL_PAT` with all its
optional parts empty; the pattern has no word boundary, so any suffix
occurrence counts. -/
def afterDoctor (t : List Char) : Bool :=
  (dropSuffixCI t "doctor".data).isSome

/-- Alternative `Your\s+response` of `PROMPT_TAIL_PAT`, end-anchored on a
right-stripped string. -/
def matchYR (s : List Char) : Bool :=
  match dropSuffixCI s "response".data with
  | some r => endsWithWs r && (dropSuffixCI (rstrip r) "your".data).isSome
  | none => false

/-- Alternative `Enter\s+your\s+response` of `PROMPT_TAIL_PAT`, end-anchored
on a right-stripped string. -/
def matchEYR (s : List Char) : Bool :=
  match dropSuffixCI s "response".data with
  | some r =>
      endsWithWs r &&
        (match dropSuffixCI (rstrip r) "your".data with
         | some r2 => endsWithWs r2 && (dropSuffixCI (rstrip r2) "enter".data).isSome
         | none => false)
  | none => false

/-- Alternative `Doctor(?:\s*\[\d+%])?\s*:?\s*` of `PROMPT_TAIL_PAT`,
end-anchored on a right-stripped string `s`.  Since `s` carries no trailing
whitespace, a match ends with `doctor`, with `]` of the bracketed
percentage, or with the optional colon. -/
def matchA3 (s : List Char) : Bool :=
  afterDoctor s ||
  (match dropSuffixCI s ":".data with
   | some r =>
       afterDoctor (rstrip r) ||
         (match dropBracket (rstrip r) with
          | some u => afterDoctor (rstrip u)
          | none => false)
   | none => false) ||
  (match dropBracket s with
   | some u => afterDoctor (rstrip u)
   | none => false)

/-- `question\s+for\s+patient` end-anchored match. -/
def matchQFP (t : List Char) : Bool :=
  match dropSuffixCI t "patient".data with
  | some r =>
      endsWithWs r &&
        (match dropSuffixCI (rstrip r) "for".data with
         | some r2 => endsWithWs r2 && (dropSuffixCI (rstrip r2) "question".data).isSome
         | none => false)
  | none => false

/-- Alternative `Question\s+for\s+patient\s*:?` of `PROMPT_TAIL_PAT`,
end-anchored on a right-stripped string. -/
def matchA4 (s : List Char) : Bool :=
  matchQFP s ||
  (match dropSuffixCI s ":".data with
   | some r => matchQFP (rstrip r)
   | none => false)

/-- `PROMPT_TAIL_PAT.search`: the pattern is
`(Your\s+response|Enter\s+your\s+response|Doctor(?:\s*\[\d+%])?\s*:?\s*|Question\s+for\s+patient\s*:?)\s*$`
with `re.IGNORECASE`.  The trailing `\s*$` (and the trailing `\s*` inside
the alternatives) absorb exactly the trailing whitespace, so a search hit
exists iff one of the four alternatives matches at the end of the
right-stripped string. -/
def PROMPT_TAIL_search (s : List Char) : Bool :=
  matchYR (rstrip s) || matchEYR (rstrip s) || matchA3 (rstrip s) || matchA4 (rstrip s)

/-- `AgentClinicProcess._tail_has_prompt`: `s = tail[-200:].rstrip()` then
`PROMPT_TAIL_PAT.search(s)`. -/
def tail_has_prompt (tail : List Char) : Bool :=
  PROMPT_TAIL_search (rstrip (takeLast 200 tail))

/-- Trailing `\[\d+%]` part of `PATIENT_LINE_PAT` read left to right:
`\s*\[\d+%]`, returning what follows `]`. -/
def parseBracket (r : List Char) : Option (List Char) :=
  match r.dropWhile pyIsSpace with
  | '[' :: r2 =>
      if (r2.takeWhile Char.isDigit).isEmpty then none
      else
        match r2.dropWhile Char.isDigit with
        | '%' :: ']' :: r4 => some r4
        | _ => none
  | _ => none

/-- Continuation `\s*[:：]\s*(.+)$` of `PATIENT_LINE_PAT` after the optional
bracket, returning the captured group already `strip`-ped (the driver only
ever uses `m.group(1).strip()`).  A match needs at least one character
after the colon; the lines the driver classifies contain no `'\n'`, so
`.+$` accepts exactly any nonempty remainder. -/
def afterColon (r : List Char) : Option (List Char) :=
  match r.dropWhile pyIsSpace with
  | c :: r2 =>
      if (c = ':' || c = '：') && !r2.isEmpty then some (strip r2) else none
  | [] => none

/-- Label continuation `(?:\s*\[\d+%])?\s*[:：]\s*(.+)$`: the optional
bracket is tried first (greedy `?`), then the bracket-less reading. -/
def contLabel (r : List Char) : Option (List Char) :=
  (match parseBracket r with
   | some r4 => afterColon r4
   | none => none) <|> afterColon r

/-- `PATIENT_LINE_PAT.match(line)` followed by `m.group(1).strip()`:
the pattern is `^\s*(?:PATIENT|Patient|P)(?:\s*\[\d+%])?\s*[:：]\s*(.+)$`
with `re.IGNORECASE`.  Under `IGNORECASE` the first two label alternatives
coincide; the regex engine tries the seven-letter label first and falls
back to the one-letter label `P`. -/
def PATIENT_LINE_match (line : List Char) : Option (List Char) :=
  (if startsWithCI (line.dropWhile pyIsSpace) "patient".data then
     contLabel ((line.dropWhile pyIsSpace).drop 7) else none) <|>
  (if startsWithCI (line.dropWhile pyIsSpace) "p".data then
     contLabel ((line.dropWhile pyIsSpace).drop 1) else none)

/-- Suffixes of a character list, longest first, used for `re.search`. -/
def sfx : List Char → List (List Char)
  | [] => [[]]
  | c :: r => (c :: r) :: sfx r

/-- Does `w1` followed by `\s+` followed by `w2` occur starting at `t`? -/
def pairAt (t w1 w2 : List Char) : Bool :=
  startsWithCI t w1 &&
    (let r := t.drop w1.length
     let r1 := r.dropWhile pyIsSpace
     decide (r1.length < r.length) && startsWithCI r1 w2)

/-- `re.search` of the pattern `(?i)w1\s+w2` in `s`. -/
def containsPair (s w1 w2 : List Char) : Bool :=
  (sfx s).any (fun t => pairAt t w1 w2)

/-- `AgentClinicProcess._is_end_line`: `any(p.search(line) for p in
END_PATTERNS)` with the patterns `(?i)final\s+diagnosis`, `(?i)case\s+over`,
`(?i)thank\s+you`. -/
def is_end_line (line : List Char) : Bool :=
  containsPair line "final".data "diagnosis".data ||
  containsPair line "case".data "over".data ||
  containsPair line "thank".data "you".data

/-!
The session driver `AgentClinicProcess.run_episode`.

The child process channel is modelled as the script of results that the
blocking `f_out.read(1)` calls return, in order: either a character
(together with the two wall-clock readings the loop body takes while
handling it: `time.time()` right after the read returns, and `time.time()`
at the idle-timeout check at the end of the body) or end-of-stream
(`read` returned `""`).  Clock values are naturals.

`f_in.write` can raise (`BrokenPipeError` when the peer exited); the
environment parameter `wf` says, per write index, whether that write
raises.  The reply source `on_doctor_utterance` may either return a reply
or raise; both are honest possibilities of the source.

The Python function returns only `history` and signals the rest by which
`break` it took (or by an exception escaping through the `finally`).  The
model labels each `break` with the `EndReason` the specification names for
it, records every string passed to `f_in.write`, and keeps the state at an
exception so that the lost partial transcript can be talked about.
-/

/-- Why the main loop stopped, labelling the four `break` sites of
`run_episode`. -/
inductive EndReason where
  | ROUND_LIMIT
  | END_SIGNAL
  | STREAM_CLOSED
  | TIMEOUT
deriving DecidableEq, Repr

/-- Exceptions that escape `run_episode` (through its `finally`). -/
inductive EpErr where
  | replyErr
  | writeErr
deriving DecidableEq, Repr

/-- One result of a blocking `f_out.read(1)` call. -/
inductive REv where
  | eof (t : Nat)
  | rc (c : Char) (tArr tChk : Nat)
deriving DecidableEq, Repr

/-- The local state of the `run_episode` loop: `history`, `tail`,
`cur_line`, `rounds`, `t_last_output`, plus the record of the strings
passed to `f_in.write`. -/
structure LoopSt where
  history : List (String × List Char)
  tail : List Char
  cur_line : List Char
  rounds : Nat
  t_last : Nat
  writes : List (List Char)
deriving DecidableEq, Repr

/-- Driver configuration: `max_rounds` (from `total_inferences`) and
`prompt_timeout_s`. -/
structure Config where
  max_rounds : Nat
  prompt_timeout_s : Nat
deriving DecidableEq, Repr

/-- Result of the loop: a labelled `break` with the final state, an
exception carrying the state it interrupted, or an exhausted script while
the loop would still be blocked in `read`. -/
inductive EpResult where
  | done (st : LoopSt) (r : EndReason)
  | err (e : EpErr) (st : LoopSt)
  | blocked (st : LoopSt)
deriving DecidableEq, Repr

/-- Continue the loop or leave it. -/
inductive StepOut where
  | cont (st : LoopSt)
  | halt (r : EpResult)
deriving DecidableEq, Repr

/-- The reply source `on_doctor_utterance`. -/
def ReplySource : Type :=
  List (String × List Char) → Except Unit (List Char)

/-- `f_in.write((reply.rstrip() + "\n"))`: `none` when the write raises
(per the write-failure script `wf`), otherwise the state with the written
string recorded. -/
def doWrite (wf : Nat → Bool) (st : LoopSt) (reply : List Char) : Option LoopSt :=
  if wf st.writes.length then none
  else some { st with writes := st.writes ++ [rstrip reply ++ ['\n']] }

/-- `m = self.PATIENT_LINE_PAT.match(cur_line); if m:
history.append(("PATIENT", m.group(1).strip()))`. -/
def patientPart (st : LoopSt) : LoopSt :=
  match PATIENT_LINE_match st.cur_line with
  | some u => { st with history := st.history ++ [("PATIENT", u)] }
  | none => st

/-- The end-of-episode branch inside the newline case: one final reply is
generated, written and appended, then the loop `break`s. -/
def endPart (onDoc : ReplySource) (wf : Nat → Bool) (stP : LoopSt) : StepOut :=
  match onDoc stP.history with
  | .error _ => .halt (.err .replyErr stP)
  | .ok reply =>
      match doWrite wf stP reply with
      | none => .halt (.err .writeErr stP)
      | some stW =>
          .halt (.done { stW with history := stW.history ++ [("DOCTOR", reply)] } .END_SIGNAL)

/-- The `if ch == "\n"` branch of the loop body: echo (ignored), classify
the completed `cur_line` with `PATIENT_LINE_PAT` and `_is_end_line`; on an
end line write one last reply and `break`; otherwise reset `cur_line`.  On
any other character, accumulate it into `cur_line`. -/
def lineStep (onDoc : ReplySource) (wf : Nat → Bool) (st : LoopSt) (c : Char) : StepOut :=
  if c = '\n' then
    if is_end_line st.cur_line then endPart onDoc wf (patientPart st)
    else .cont { patientPart st with cur_line := [] }
  else .cont { st with cur_line := st.cur_line ++ [c] }

/-- `if rounds >= self.max_rounds: break` — otherwise `tail = ""`. -/
def promptAfter (cfg : Config) (st2 : LoopSt) : StepOut :=
  if st2.rounds ≥ cfg.max_rounds then .halt (.done st2 .ROUND_LIMIT)
  else .cont { st2 with tail := [] }

/-- Reply sending on the prompt-tail path: generate, write, append,
count the round, then `promptAfter`. -/
def promptSend (cfg : Config) (onDoc : ReplySource) (wf : Nat → Bool) (st : LoopSt) : StepOut :=
  match onDoc st.history with
  | .error _ => .halt (.err .replyErr st)
  | .ok reply =>
      match doWrite wf st reply with
      | none => .halt (.err .writeErr st)
      | some stW =>
          promptAfter cfg { stW with
            history := stW.history ++ [("DOCTOR", reply)],
            rounds := stW.rounds + 1 }

/-- The `if self._tail_has_prompt(tail)` part of the loop body. -/
def promptStep (cfg : Config) (onDoc : ReplySource) (wf : Nat → Bool) (st : LoopSt) : StepOut :=
  if tail_has_prompt st.tail then promptSend cfg onDoc wf st else .cont st

/-- `t_last_output = time.time(); tail = (tail + ch)[-512:]` at the top of
the loop body after a successful read. -/
def recvSt (st : LoopSt) (c : Char) (tArr : Nat) : LoopSt :=
  { st with t_last := tArr, tail := takeLast 512 (st.tail ++ [c]) }

/-- One iteration of the `while True` body on one `read(1)` result:
end-of-stream breaks at once; otherwise refresh `t_last_output`, extend
`tail` (capped at 512), handle the newline/accumulate branch, the prompt
tail, and finally the idle-timeout check. -/
def stepEv (cfg : Config) (onDoc : ReplySource) (wf : Nat → Bool) (st : LoopSt) (e : REv) :
    StepOut :=
  match e with
  | .eof _ => .halt (.done st .STREAM_CLOSED)
  | .rc c tArr tChk =>
      match lineStep onDoc wf (recvSt st c tArr) c with
      | .halt r => .halt r
      | .cont st2 =>
          match promptStep cfg onDoc wf st2 with
          | .halt r => .halt r
          | .cont st3 =>
              if tChk - st3.t_last > cfg.prompt_timeout_s then .halt (.done st3 .TIMEOUT)
              else .cont st3

/-- The `while True` loop over the read script. -/
def loop (cfg : Config) (onDoc : ReplySource) (wf : Nat → Bool) :
    LoopSt → List REv → EpResult
  | st, [] => .blocked st
  | st, e :: rest =>
      match stepEv cfg onDoc wf st e with
      | .cont st' => loop cfg onDoc wf st' rest
      | .halt r => r

/-- The loop state right after `self.start()`: empty transcript, empty
buffers, zero rounds, `t_last_output = time.time()` at entry. -/
def initSt (t0 : Nat) : LoopSt :=
  { history := [], tail := [], cur_line := [], rounds := 0, t_last := t0, writes := [] }

/-- The child process handle, reduced to whether it is still running. -/
structure Proc where
  running : Bool
deriving DecidableEq, Repr

/-- `subprocess.Popen(...)` in `AgentClinicProcess.start`. -/
def start : Proc :=
  { running := true }

/-- `AgentClinicProcess.terminate`: terminate the child if it still runs,
do nothing otherwise; every exception is swallowed, so the function is
total. -/
def terminate (p : Proc) : Proc :=
  if p.running then { running := false } else p

/-- `AgentClinicProcess.run_episode`: start the child, run the loop, and —
in the `finally` block, hence on the normal returns and on the exception
paths alike — terminate the child before control leaves the function. -/
def run_episode (cfg : Config) (onDoc : ReplySource) (wf : Nat → Bool)
    (t0 : Nat) (evs : List REv) : EpResult × Proc :=
  (loop cfg onDoc wf (initSt t0) evs, terminate start)

/-- The loop state carried by any loop result. -/
def stOf : EpResult → LoopSt
  | .done st _ => st
  | .err _ st => st
  | .blocked st => st

/-- The end reason of a normally ended session, if any. -/
def reasonOf : EpResult → Option EndReason
  | .done _ r => some r
  | .err _ _ => none
  | .blocked _ => none

/-- Character script helper: the channel emits the characters of `s`, each
read back at clock `t` with the idle check also at clock `t`. -/
def charTrace (s : List Char) (t : Nat) : List REv :=
  s.map (fun c => REv.rc c t t)

/-- Every recorded write is some reply of the reply source, right-stripped
with exactly one newline appended. -/
def WritesOk (onDoc : ReplySource) (st : LoopSt) : Prop :=
  ∀ w ∈ st.writes, ∃ hist reply, onDoc hist = .ok reply ∧ w = rstrip reply ++ ['\n']

/-! Concrete reply sources, write behaviours and states used in concrete
runs of the driver. -/

/-- A reply source that always answers `ok`. -/
def odOK : ReplySource := fun _ => .ok "ok".data

/-- A channel whose writes all succeed. -/
def wfNone : Nat → Bool := fun _ => false

/-- A channel whose writes all raise (peer no longer accepting input). -/
def wfAll : Nat → Bool := fun _ => true

/-- The scene-summary line of the spec scenario. -/
def sceneLine : List Char := "Scene 0, The diagnosis was CORRECT 100".data

/-- Final state of the run on channel output `"thank you\n"` with `odOK`. -/
def c4st : LoopSt :=
  { history := [("DOCTOR", "ok".data)], tail := "thank you\n".data,
    cur_line := "thank you".data, rounds := 0, t_last := 0, writes := ["ok\n".data] }

/-- Final state of the run on channel output `"Doctor"` with `odOK` and one
allowed round. -/
def c5st : LoopSt :=
  { history := [("DOCTOR", "ok".data)], tail := "Doctor".data,
    cur_line := "Doctor".data, rounds := 1, t_last := 0, writes := ["ok\n".data] }

/-- A mid-line state whose tail is a prompt and whose accumulator holds the
prompt fragment. -/
def c6st : LoopSt :=
  { history := [], tail := "Doctor".data, cur_line := "Doctor".data,
    rounds := 0, t_last := 0, writes := [] }

/-- `c6st` after the prompt-path reply. -/
def c6st1 : LoopSt :=
  { history := [("DOCTOR", "ok".data)], tail := [], cur_line := "Doctor".data,
    rounds := 1, t_last := 0, writes := ["ok\n".data] }

/-- `c6st` after a newline completing a non-end line. -/
def c6st2 : LoopSt :=
  { history := [], tail := "Doctor".data, cur_line := [],
    rounds := 0, t_last := 0, writes := [] }

/-- A state about to complete the line `"Patient: thank you"`. -/
def c7st : LoopSt :=
  { history := [], tail := [], cur_line := "Patient: thank you".data,
    rounds := 0, t_last := 0, writes := [] }

/-! Structural lemmas about the driver's loop body. -/

lemma dropWhile_dropWhile_same (p : Char → Bool) (l : List Char) :
    (l.dropWhile p).dropWhile p = l.dropWhile p := by
  induction l with
  | nil => rfl
  | cons c r ih =>
      by_cases h : p c = true
      · simp [List.dropWhile_cons, h, ih]
      · simp [List.dropWhile_cons, h]

lemma rstrip_idem (s : List Char) : rstrip (rstrip s) = rstrip s := by
  simp [rstrip, List.reverse_reverse, dropWhile_dropWhile_same]

lemma takeLast_length (n : Nat) (s : List Char) :
    (takeLast n s).length = s.length - (s.length - n) := by
  simp [takeLast]

lemma patientPart_fields (st : LoopSt) :
    (patientPart st).rounds = st.rounds ∧ (patientPart st).writes = st.writes ∧
    (patientPart st).cur_line = st.cur_line ∧ (patientPart st).tail = st.tail ∧
    (patientPart st).t_last = st.t_last := by
  unfold patientPart
  split <;> exact ⟨rfl, rfl, rfl, rfl, rfl⟩

lemma endPart_not_cont (onDoc : ReplySource) (wf : Nat → Bool) (stP st' : LoopSt) :
    endPart onDoc wf stP ≠ .cont st' := by
  unfold endPart doWrite
  cases onDoc stP.history with
  | error u => simp
  | ok reply =>
      by_cases hwf : wf stP.writes.length = true
      · simp [hwf]
      · simp [hwf]

lemma endPart_done (onDoc : ReplySource) (wf : Nat → Bool) (stP st' : LoopSt) (r : EndReason)
    (h : endPart onDoc wf stP = .halt (.done st' r)) :
    r = .END_SIGNAL ∧
    ∃ reply, onDoc stP.history = .ok reply ∧
      st' = { stP with
        history := stP.history ++ [("DOCTOR", reply)],
        writes := stP.writes ++ [rstrip reply ++ ['\n']] } := by
  unfold endPart at h
  split at h
  · exact absurd h (by simp)
  · rename_i reply hod
    split at h
    · exact absurd h (by simp)
    · rename_i stW hW
      unfold doWrite at hW
      split at hW
      · exact absurd hW (by simp)
      · simp only [Option.some.injEq] at hW
        simp only [StepOut.halt.injEq, EpResult.done.injEq] at h
        refine ⟨h.2.symm, reply, hod, ?_⟩
        rw [← h.1, ← hW]

lemma endPart_err (onDoc : ReplySource) (wf : Nat → Bool) (stP st' : LoopSt) (e : EpErr)
    (h : endPart onDoc wf stP = .halt (.err e st')) :
    st' = stP := by
  unfold endPart at h
  split at h
  · simp only [StepOut.halt.injEq, EpResult.err.injEq] at h
    exact h.2.symm
  · split at h
    · simp only [StepOut.halt.injEq, EpResult.err.injEq] at h
      exact h.2.symm
    · exact absurd h (by simp)

lemma lineStep_cont (onDoc : ReplySource) (wf : Nat → Bool) (st : LoopSt) (c : Char)
    (st' : LoopSt) (h : lineStep onDoc wf st c = .cont st') :
    st'.rounds = st.rounds ∧ st'.writes = st.writes ∧ st'.history.length ≥ st.history.length ∧
    (c = '\n' → st'.cur_line = []) := by
  unfold lineStep at h
  by_cases hc : c = '\n'
  · rw [if_pos hc] at h
    by_cases he : is_end_line st.cur_line = true
    · rw [if_pos he] at h; exact absurd h (endPart_not_cont onDoc wf _ st')
    · rw [if_neg he] at h
      simp only [StepOut.cont.injEq] at h
      subst h
      obtain ⟨h1, h2, _, _, _⟩ := patientPart_fields st
      refine ⟨h1, h2, ?_, fun _ => rfl⟩
      unfold patientPart
      split <;> simp
  · rw [if_neg hc] at h
    simp only [StepOut.cont.injEq] at h
    subst h
    exact ⟨rfl, rfl, le_refl _, fun hcc => absurd hcc hc⟩

lemma lineStep_done (onDoc : ReplySource) (wf : Nat → Bool) (st : LoopSt) (c : Char)
    (st' : LoopSt) (r : EndReason) (h : lineStep onDoc wf st c = .halt (.done st' r)) :
    r = .END_SIGNAL ∧ st'.rounds = st.rounds ∧
    ∃ reply, onDoc (patientPart st).history = .ok reply ∧
      st'.writes = st.writes ++ [rstrip reply ++ ['\n']] := by
  unfold lineStep at h
  by_cases hc : c = '\n'
  · rw [if_pos hc] at h
    by_cases he : is_end_line st.cur_line = true
    · rw [if_pos he] at h
      obtain ⟨hr, reply, hod, hst⟩ := endPart_done onDoc wf _ st' r h
      obtain ⟨h1, h2, _, _, _⟩ := patientPart_fields st
      subst hst
      exact ⟨hr, h1, reply, hod, by rw [h2]⟩
    · rw [if_neg he] at h; exact absurd h (by simp)
  · rw [if_neg hc] at h; exact absurd h (by simp)

lemma lineStep_err (onDoc : ReplySource) (wf : Nat → Bool) (st : LoopSt) (c : Char)
    (st' : LoopSt) (e : EpErr) (h : lineStep onDoc wf st c = .halt (.err e st')) :
    st'.rounds = st.rounds ∧ st'.writes = st.writes := by
  unfold lineStep at h
  by_cases hc : c = '\n'
  · rw [if_pos hc] at h
    by_cases he : is_end_line st.cur_line = true
    · rw [if_pos he] at h
      have := endPart_err onDoc wf _ st' e h
      subst this
      obtain ⟨h1, h2, _, _, _⟩ := patientPart_fields st
      exact ⟨h1, h2⟩
    · rw [if_neg he] at h; exact absurd h (by simp)
  · rw [if_neg hc] at h; exact absurd h (by simp)

lemma promptSend_cont (cfg : Config) (onDoc : ReplySource) (wf : Nat → Bool)
    (st st' : LoopSt) (h : promptSend cfg onDoc wf st = .cont st') :
    ∃ reply, onDoc st.history = .ok reply ∧
      st'.rounds = st.rounds + 1 ∧ st'.rounds < cfg.max_rounds ∧
      st'.writes = st.writes ++ [rstrip reply ++ ['\n']] ∧
      st'.history = st.history ++ [("DOCTOR", reply)] ∧
      st'.tail = [] ∧ st'.cur_line = st.cur_line ∧ st'.t_last = st.t_last := by
  unfold promptSend at h
  split at h
  · exact absurd h (by simp)
  · rename_i reply hod
    split at h
    · exact absurd h (by simp)
    · rename_i stW hW
      unfold doWrite at hW
      split at hW
      · exact absurd hW (by simp)
      · simp only [Option.some.injEq] at hW
        subst hW
        unfold promptAfter at h
        split at h
        · exact absurd h (by simp)
        · rename_i hge
          simp only [StepOut.cont.injEq] at h
          subst h
          simp only [ge_iff_le, not_le] at hge
          exact ⟨reply, hod, rfl, hge, rfl, rfl, rfl, rfl, rfl⟩

lemma promptSend_done (cfg : Config) (onDoc : ReplySource) (wf : Nat → Bool)
    (st st' : LoopSt) (r : EndReason) (h : promptSend cfg onDoc wf st = .halt (.done st' r)) :
    r = .ROUND_LIMIT ∧ st'.rounds = st.rounds + 1 ∧ cfg.max_rounds ≤ st'.rounds ∧
    ∃ reply, onDoc st.history = .ok reply ∧
      st'.writes = st.writes ++ [rstrip reply ++ ['\n']] := by
  unfold promptSend at h
  split at h
  · exact absurd h (by simp)
  · rename_i reply hod
    split at h
    · exact absurd h (by simp)
    · rename_i stW hW
      unfold doWrite at hW
      split at hW
      · exact absurd hW (by simp)
      · simp only [Option.some.injEq] at hW
        subst hW
        unfold promptAfter at h
        split at h
        · rename_i hge
          simp only [StepOut.halt.injEq, EpResult.done.injEq] at h
          obtain ⟨h1, h2⟩ := h
          subst h1
          exact ⟨h2.symm, rfl, hge, reply, hod, rfl⟩
        · exact absurd h (by simp)

lemma promptSend_err (cfg : Config) (onDoc : ReplySource) (wf : Nat → Bool)
    (st st' : LoopSt) (e : EpErr) (h : promptSend cfg onDoc wf st = .halt (.err e st')) :
    st' = st := by
  unfold promptSend at h
  split at h
  · simp only [StepOut.halt.injEq, EpResult.err.injEq] at h
    exact h.2.symm
  · split at h
    · simp only [StepOut.halt.injEq, EpResult.err.injEq] at h
      exact h.2.symm
    · rename_i stW hW
      unfold promptAfter at h
      split at h
      · exact absurd h (by simp)
      · exact absurd h (by simp)

lemma promptStep_cont (cfg : Config) (onDoc : ReplySource) (wf : Nat → Bool)
    (st st' : LoopSt) (h : promptStep cfg onDoc wf st = .cont st') :
    st' = st ∨
      (st'.rounds = st.rounds + 1 ∧ st'.rounds < cfg.max_rounds ∧
       st'.cur_line = st.cur_line ∧ st'.tail = [] ∧ st'.t_last = st.t_last ∧
       ∃ reply, onDoc st.history = .ok reply ∧
         st'.writes = st.writes ++ [rstrip reply ++ ['\n']]) := by
  unfold promptStep at h
  by_cases ht : tail_has_prompt st.tail = true
  · rw [if_pos ht] at h
    obtain ⟨reply, hod, h1, h2, h3, _, h5, h6, h7⟩ := promptSend_cont cfg onDoc wf st st' h
    exact Or.inr ⟨h1, h2, h6, h5, h7, reply, hod, h3⟩
  · rw [if_neg ht] at h
    simp only [StepOut.cont.injEq] at h
    exact Or.inl h.symm

lemma promptStep_done (cfg : Config) (onDoc : ReplySource) (wf : Nat → Bool)
    (st st' : LoopSt) (r : EndReason) (h : promptStep cfg onDoc wf st = .halt (.done st' r)) :
    r = .ROUND_LIMIT ∧ st'.rounds = st.rounds + 1 ∧ cfg.max_rounds ≤ st'.rounds ∧
    ∃ reply, onDoc st.history = .ok reply ∧
      st'.writes = st.writes ++ [rstrip reply ++ ['\n']] := by
  unfold promptStep at h
  by_cases ht : tail_has_prompt st.tail = true
  · rw [if_pos ht] at h
    exact promptSend_done cfg onDoc wf st st' r h
  · rw [if_neg ht] at h; exact absurd h (by simp)

lemma promptStep_err (cfg : Config) (onDoc : ReplySource) (wf : Nat → Bool)
    (st st' : LoopSt) (e : EpErr) (h : promptStep cfg onDoc wf st = .halt (.err e st')) :
    st' = st := by
  unfold promptStep at h
  by_cases ht : tail_has_prompt st.tail = true
  · rw [if_pos ht] at h
    exact promptSend_err cfg onDoc wf st st' e h
  · rw [if_neg ht] at h; exact absurd h (by simp)

lemma recvSt_fields (st : LoopSt) (c : Char) (tArr : Nat) :
    (recvSt st c tArr).rounds = st.rounds ∧ (recvSt st c tArr).writes = st.writes ∧
    (recvSt st c tArr).cur_line = st.cur_line ∧ (recvSt st c tArr).history = st.history := by
  unfold recvSt
  exact ⟨rfl, rfl, rfl, rfl⟩

lemma lineStep_not_blocked (onDoc : ReplySource) (wf : Nat → Bool) (st : LoopSt) (c : Char)
    (st' : LoopSt) : lineStep onDoc wf st c ≠ .halt (.blocked st') := by
  intro h
  unfold lineStep at h
  split at h
  · split at h
    · unfold endPart at h
      split at h
      · simp at h
      · split at h
        · simp at h
        · simp at h
    · simp at h
  · simp at h

lemma promptStep_not_blocked (cfg : Config) (onDoc : ReplySource) (wf : Nat → Bool)
    (st st' : LoopSt) : promptStep cfg onDoc wf st ≠ .halt (.blocked st') := by
  intro h
  unfold promptStep at h
  split at h
  · unfold promptSend at h
    split at h
    · simp at h
    · split at h
      · simp at h
      · unfold promptAfter at h
        split at h <;> simp at h
  · simp at h

/-- Everything one loop iteration can do to `rounds` and `writes`: either
nothing, or one reply written on the end-signal path (no round counted),
or one reply written on the prompt path (one round counted), each labelled
by how the iteration ends. -/
lemma stepEv_cases (cfg : Config) (onDoc : ReplySource) (wf : Nat → Bool)
    (st : LoopSt) (e : REv) :
    (∀ st', stepEv cfg onDoc wf st e = .cont st' →
        (st'.rounds = st.rounds ∧ st'.writes = st.writes) ∨
        (st'.rounds = st.rounds + 1 ∧ st'.rounds < cfg.max_rounds ∧
         ∃ hist reply, onDoc hist = .ok reply ∧
           st'.writes = st.writes ++ [rstrip reply ++ ['\n']])) ∧
    (∀ st' r, stepEv cfg onDoc wf st e = .halt (.done st' r) →
        (r = .STREAM_CLOSED ∧ st' = st) ∨
        (r = .END_SIGNAL ∧ st'.rounds = st.rounds ∧
         ∃ hist reply, onDoc hist = .ok reply ∧
           st'.writes = st.writes ++ [rstrip reply ++ ['\n']]) ∨
        (r = .ROUND_LIMIT ∧ st'.rounds = st.rounds + 1 ∧ cfg.max_rounds ≤ st'.rounds ∧
         ∃ hist reply, onDoc hist = .ok reply ∧
           st'.writes = st.writes ++ [rstrip reply ++ ['\n']]) ∨
        (r = .TIMEOUT ∧
         ((st'.rounds = st.rounds ∧ st'.writes = st.writes) ∨
          (st'.rounds = st.rounds + 1 ∧ st'.rounds < cfg.max_rounds ∧
           ∃ hist reply, onDoc hist = .ok reply ∧
             st'.writes = st.writes ++ [rstrip reply ++ ['\n']])))) ∧
    (∀ e' st', stepEv cfg onDoc wf st e = .halt (.err e' st') →
        st'.rounds = st.rounds ∧ st'.writes = st.writes) ∧
    (∀ st', stepEv cfg onDoc wf st e = .halt (.blocked st') → False) := by
  obtain ⟨hR0, hW0, _, _⟩ := recvSt_fields st (match e with | .eof _ => ' ' | .rc c _ _ => c) 0
  cases e with
  | eof t =>
      refine ⟨?_, ?_, ?_, ?_⟩
      · intro st' h; exact absurd h (by simp [stepEv])
      · intro st' r h
        simp only [stepEv, StepOut.halt.injEq, EpResult.done.injEq] at h
        exact Or.inl ⟨h.2.symm, h.1.symm⟩
      · intro e' st' h; exact absurd h (by simp [stepEv])
      · intro st' h; exact absurd h (by simp [stepEv])
  | rc c tArr tChk =>
      clear hR0 hW0
      obtain ⟨hR0, hW0, _, _⟩ := recvSt_fields st c tArr
      refine ⟨?_, ?_, ?_, ?_⟩
      · intro st' h
        simp only [stepEv] at h
        split at h
        · exact absurd h (by simp)
        · rename_i st2 hls
          split at h
          · exact absurd h (by simp)
          · rename_i st3 hps
            split at h
            · exact absurd h (by simp)
            · simp only [StepOut.cont.injEq] at h
              subst h
              obtain ⟨hl1, hl2, _, _⟩ := lineStep_cont onDoc wf _ c st2 hls
              rcases promptStep_cont cfg onDoc wf st2 st3 hps with hEq | ⟨hp1, hp2, _, _, _, reply, hod, hp3⟩
              · subst hEq
                exact Or.inl ⟨by omega, by rw [hl2, hW0]⟩
              · refine Or.inr ⟨by omega, by omega, st2.history, reply, hod, ?_⟩
                rw [hp3, hl2, hW0]
      · intro st' r h
        simp only [stepEv] at h
        split at h
        · rename_i r0 hls
          simp only [StepOut.halt.injEq] at h
          subst h
          rcases hls0 : lineStep onDoc wf (recvSt st c tArr) c with _ | r1
          · rw [hls0] at hls; exact absurd hls (by simp)
          · rw [hls0] at hls
            simp only [StepOut.halt.injEq] at hls
            subst hls
            obtain ⟨hr, h1, reply, hod, h2⟩ := lineStep_done onDoc wf _ c st' r hls0
            exact Or.inr (Or.inl ⟨hr, by omega, _, reply, hod, by rw [h2, hW0]⟩)
        · rename_i st2 hls
          split at h
          · rename_i r0 hps
            simp only [StepOut.halt.injEq] at h
            subst h
            obtain ⟨hl1, hl2, _, _⟩ := lineStep_cont onDoc wf _ c st2 hls
            rcases hps0 : promptStep cfg onDoc wf st2 with _ | r1
            · rw [hps0] at hps; exact absurd hps (by simp)
            · rw [hps0] at hps
              simp only [StepOut.halt.injEq] at hps
              subst hps
              obtain ⟨hr, h1, h2, reply, hod, h3⟩ := promptStep_done cfg onDoc wf st2 st' r hps0
              refine Or.inr (Or.inr (Or.inl ⟨hr, by omega, h2, st2.history, reply, hod, ?_⟩))
              rw [h3, hl2, hW0]
          · rename_i st3 hps
            split at h
            · simp only [StepOut.halt.injEq, EpResult.done.injEq] at h
              obtain ⟨h1, h2⟩ := h
              subst h1
              obtain ⟨hl1, hl2, _, _⟩ := lineStep_cont onDoc wf _ c st2 hls
              refine Or.inr (Or.inr (Or.inr ⟨h2.symm, ?_⟩))
              rcases promptStep_cont cfg onDoc wf st2 st3 hps with hEq | ⟨hp1, hp2, _, _, _, reply, hod, hp3⟩
              · subst hEq
                exact Or.inl ⟨by omega, by rw [hl2, hW0]⟩
              · refine Or.inr ⟨by omega, by omega, st2.history, reply, hod, ?_⟩
                rw [hp3, hl2, hW0]
            · exact absurd h (by simp)
      · intro e' st' h
        simp only [stepEv] at h
        split at h
        · rename_i r0 hls
          simp only [StepOut.halt.injEq] at h
          subst h
          rcases hls0 : lineStep onDoc wf (recvSt st c tArr) c with _ | r1
          · rw [hls0] at hls; exact absurd hls (by simp)
          · rw [hls0] at hls
            simp only [StepOut.halt.injEq] at hls
            subst hls
            obtain ⟨h1, h2⟩ := lineStep_err onDoc wf _ c st' e' hls0
            exact ⟨by omega, by rw [h2, hW0]⟩
        · rename_i st2 hls
          split at h
          · rename_i r0 hps
            simp only [StepOut.halt.injEq] at h
            subst h
            obtain ⟨hl1, hl2, _, _⟩ := lineStep_cont onDoc wf _ c st2 hls
            rcases hps0 : promptStep cfg onDoc wf st2 with _ | r1
            · rw [hps0] at hps; exact absurd hps (by simp)
            · rw [hps0] at hps
              simp only [StepOut.halt.injEq] at hps
              subst hps
              have hEq := promptStep_err cfg onDoc wf st2 st' e' hps0
              subst hEq
              exact ⟨by omega, by rw [hl2, hW0]⟩
          · rename_i st3 hps
            split at h
            · exact absurd h (by simp)
            · exact absurd h (by simp)
      · intro st' h
        simp only [stepEv] at h
        split at h
        · rename_i r0 hls
          simp only [StepOut.halt.injEq] at h
          subst h
          exact lineStep_not_blocked onDoc wf _ c st' hls
        · rename_i st2 hls
          split at h
          · rename_i r0 hps
            simp only [StepOut.halt.injEq] at h
            subst h
            exact promptStep_not_blocked cfg onDoc wf st2 st' hps
          · rename_i st3 hps
            split at h
            · exact absurd h (by simp)
            · exact absurd h (by simp)

/-- Round bound carried through the loop: while running, `rounds` stays
strictly below `max_rounds`; a `ROUND_LIMIT` break hits the bound exactly. -/
lemma loop_rounds (cfg : Config) (onDoc : ReplySource) (wf : Nat → Bool) :
    ∀ (evs : List REv) (st : LoopSt), st.rounds < cfg.max_rounds →
    ∀ st' r, loop cfg onDoc wf st evs = .done st' r →
      st'.rounds ≤ cfg.max_rounds ∧ (r = .ROUND_LIMIT → st'.rounds = cfg.max_rounds) := by
  intro evs
  induction evs with
  | nil =>
      intro st hlt st' r h
      exact absurd h (by simp [loop])
  | cons e rest ih =>
      intro st hlt st' r h
      simp only [loop] at h
      split at h
      · rename_i st2 hse
        obtain ⟨hc, _, _, _⟩ := stepEv_cases cfg onDoc wf st e
        rcases hc st2 hse with ⟨h1, _⟩ | ⟨h1, h2, _⟩
        · exact ih st2 (by omega) st' r h
        · exact ih st2 h2 st' r h
      · rename_i r0 hse
        subst h
        obtain ⟨_, hd, _, _⟩ := stepEv_cases cfg onDoc wf st e
        rcases hd st' r hse with ⟨hr, hEq⟩ | ⟨hr, h1, _⟩ | ⟨hr, h1, h2, _⟩ | ⟨hr, hcc⟩
        · subst hEq
          exact ⟨le_of_lt hlt, fun hx => absurd (hr.symm.trans hx) (by simp)⟩
        · exact ⟨by omega, fun hx => absurd (hr.symm.trans hx) (by simp)⟩
        · exact ⟨by omega, fun _ => by omega⟩
        · rcases hcc with ⟨h1, _⟩ | ⟨h1, h2, _⟩
          · exact ⟨by omega, fun hx => absurd (hr.symm.trans hx) (by simp)⟩
          · exact ⟨by omega, fun hx => absurd (hr.symm.trans hx) (by simp)⟩

/-- Reply accounting carried through the loop: while running, the number
of strings written equals `rounds`; the extra end-signal reply, and only
it, is written without counting a round. -/
lemma loop_wlen (cfg : Config) (onDoc : ReplySource) (wf : Nat → Bool) :
    ∀ (evs : List REv) (st : LoopSt), st.writes.length = st.rounds →
    ((∀ st' r, loop cfg onDoc wf st evs = .done st' r →
        (r = .END_SIGNAL → st'.writes.length = st'.rounds + 1) ∧
        (r ≠ .END_SIGNAL → st'.writes.length = st'.rounds)) ∧
     (∀ e' st', loop cfg onDoc wf st evs = .err e' st' → st'.writes.length = st'.rounds) ∧
     (∀ st', loop cfg onDoc wf st evs = .blocked st' → st'.writes.length = st'.rounds)) := by
  intro evs
  induction evs with
  | nil =>
      intro st hinv
      refine ⟨?_, ?_, ?_⟩
      · intro st' r h; exact absurd h (by simp [loop])
      · intro e' st' h; exact absurd h (by simp [loop])
      · intro st' h
        simp only [loop, EpResult.blocked.injEq] at h
        subst h
        exact hinv
  | cons e rest ih =>
      intro st hinv
      obtain ⟨hc, hd, he, hb⟩ := stepEv_cases cfg onDoc wf st e
      refine ⟨?_, ?_, ?_⟩
      · intro st' r h
        simp only [loop] at h
        split at h
        · rename_i st2 hse
          rcases hc st2 hse with ⟨h1, h2⟩ | ⟨h1, h2, _, reply, _, h3⟩
          · exact (ih st2 (by rw [h1, h2]; exact hinv)).1 st' r h
          · exact (ih st2 (by rw [h1, h3]; simp; omega)).1 st' r h
        · rename_i r0 hse
          subst h
          rcases hd st' r hse with ⟨hr, hEq⟩ | ⟨hr, h1, _, reply, _, h2⟩ | ⟨hr, h1, _, _, reply, _, h2⟩ | ⟨hr, hcc⟩
          · subst hEq
            exact ⟨fun hx => absurd (hr.symm.trans hx) (by simp), fun _ => hinv⟩
          · refine ⟨fun _ => ?_, fun hx => absurd hr hx⟩
            rw [h2, h1]
            simp
            omega
          · refine ⟨fun hx => absurd (hr.symm.trans hx) (by simp), fun _ => ?_⟩
            rw [h2, h1]
            simp
            omega
          · rcases hcc with ⟨h1, h2⟩ | ⟨h1, _, _, reply, _, h3⟩
            · exact ⟨fun hx => absurd (hr.symm.trans hx) (by simp),
                fun _ => by rw [h1, h2]; exact hinv⟩
            · refine ⟨fun hx => absurd (hr.symm.trans hx) (by simp), fun _ => ?_⟩
              rw [h3, h1]
              simp
              omega
      · intro e' st' h
        simp only [loop] at h
        split at h
        · rename_i st2 hse
          rcases hc st2 hse with ⟨h1, h2⟩ | ⟨h1, h2, _, reply, _, h3⟩
          · exact (ih st2 (by rw [h1, h2]; exact hinv)).2.1 e' st' h
          · exact (ih st2 (by rw [h1, h3]; simp; omega)).2.1 e' st' h
        · rename_i r0 hse
          subst h
          obtain ⟨h1, h2⟩ := he e' st' hse
          rw [h1, h2]
          exact hinv
      · intro st' h
        simp only [loop] at h
        split at h
        · rename_i st2 hse
          rcases hc st2 hse with ⟨h1, h2⟩ | ⟨h1, h2, _, reply, _, h3⟩
          · exact (ih st2 (by rw [h1, h2]; exact hinv)).2.2 st' h
          · exact (ih st2 (by rw [h1, h3]; simp; omega)).2.2 st' h
        · rename_i r0 hse
          subst h
          exact absurd hse (by intro hx; exact hb st' hx)

lemma writesOk_append (onDoc : ReplySource) (st st' : LoopSt) (hW : WritesOk onDoc st)
    (hist : List (String × List Char)) (reply : List Char) (hod : onDoc hist = .ok reply)
    (h : st'.writes = st.writes ++ [rstrip reply ++ ['\n']]) : WritesOk onDoc st' := by
  intro w hw
  rw [h] at hw
  rcases List.mem_append.mp hw with h1 | h2
  · exact hW w h1
  · rw [List.mem_singleton] at h2
    exact ⟨hist, reply, hod, h2⟩

lemma writesOk_eq (onDoc : ReplySource) (st st' : LoopSt) (hW : WritesOk onDoc st)
    (h : st'.writes = st.writes) : WritesOk onDoc st' := by
  intro w hw
  rw [h] at hw
  exact hW w hw

lemma loop_writesOk (cfg : Config) (onDoc : ReplySource) (wf : Nat → Bool) :
    ∀ (evs : List REv) (st : LoopSt), WritesOk onDoc st →
    WritesOk onDoc (stOf (loop cfg onDoc wf st evs)) := by
  intro evs
  induction evs with
  | nil =>
      intro st hW
      simpa [loop, stOf] using hW
  | cons e rest ih =>
      intro st hW
      simp only [loop]
      obtain ⟨hc, hd, he, hb⟩ := stepEv_cases cfg onDoc wf st e
      split
      · rename_i st2 hse
        rcases hc st2 hse with ⟨_, h2⟩ | ⟨_, _, hist, reply, hod, h3⟩
        · exact ih st2 (writesOk_eq onDoc st st2 hW h2)
        · exact ih st2 (writesOk_append onDoc st st2 hW hist reply hod h3)
      · rename_i r0 hse
        cases r0 with
        | done st' r =>
            rcases hd st' r hse with ⟨_, hEq⟩ | ⟨_, _, hist, reply, hod, h2⟩ |
              ⟨_, _, _, hist, reply, hod, h2⟩ | ⟨_, hcc⟩
            · subst hEq; exact hW
            · exact writesOk_append onDoc st st' hW hist reply hod h2
            · exact writesOk_append onDoc st st' hW hist reply hod h2
            · rcases hcc with ⟨_, h2⟩ | ⟨_, _, hist, reply, hod, h3⟩
              · exact writesOk_eq onDoc st st' hW h2
              · exact writesOk_append onDoc st st' hW hist reply hod h3
        | err e' st' =>
            obtain ⟨_, h2⟩ := he e' st' hse
            exact writesOk_eq onDoc st st' hW h2
        | blocked st' => exact absurd hse (by intro hx; exact hb st' hx)

/-! The claims. -/

/-- C1: the claim says that when the channel emits nothing for longer than
`idleTimeout` and then closes, the session ends with reason `TIMEOUT`, the
timeout firing while the blocking read is still pending.  The code instead
breaks out of the loop on the end-of-stream read result without ever
consulting the clock on that path (the idle check runs only after a read
returns a character), so the run on the failing input — silence from start
time `0` past the ten-second timeout, stream closed at time `1000` — ends
as `STREAM_CLOSED` with no way to reach `TIMEOUT`. -/
theorem claim_c1_code_divergence :
    (run_episode ⟨5, 10⟩ odOK wfNone 0 [.eof 1000]).1 = .done (initSt 0) .STREAM_CLOSED ∧
    reasonOf (run_episode ⟨5, 10⟩ odOK wfNone 0 [.eof 1000]).1 ≠ some .TIMEOUT := by
  constructor
  · rfl
  · decide

/-- C2 counterexample: on the channel output
`"Scene 0, The diagnosis was CORRECT 100\n"` the driver does not end with
`END_SIGNAL` and never writes a reply — the line matches none of the three
`END_PATTERNS`, so the claimed reply/end behaviour does not happen. -/
theorem claim_c2_counterexample :
    reasonOf (run_episode ⟨5, 100⟩ odOK wfNone 0
        (charTrace (sceneLine ++ ['\n']) 0 ++ [.eof 0])).1 ≠ some .END_SIGNAL ∧
    (stOf (run_episode ⟨5, 100⟩ odOK wfNone 0
        (charTrace (sceneLine ++ ['\n']) 0 ++ [.eof 0])).1).writes = [] := by
  decide

/-- C2 amended: the scene line matches neither `PATIENT_LINE_PAT` nor any
of the `END_PATTERNS`, so the driver classifies it as noise: for every
reply source and write behaviour, the session invokes nothing, writes
nothing, records no peer utterance, and ends `STREAM_CLOSED` when the
channel closes.  (Only the offline log summarizer, not the live driver,
recognises the scene-summary line.) -/
theorem claim_c2_amended (onDoc : ReplySource) (wf : Nat → Bool) :
    is_end_line sceneLine = false ∧
    PATIENT_LINE_match sceneLine = none ∧
    (run_episode ⟨5, 100⟩ onDoc wf 0 (charTrace (sceneLine ++ ['\n']) 0 ++ [.eof 0])).1 =
      .done { history := [], tail := sceneLine ++ ['\n'], cur_line := [],
              rounds := 0, t_last := 0, writes := [] } .STREAM_CLOSED := by
  refine ⟨by decide, by decide, ?_⟩
  rfl

/-- C3 counterexample: when every write to the channel raises (peer no
longer accepting input), the run on `"Patient: hi\nDoctor"` does not end
`STREAM_CLOSED` — the write failure escapes `run_episode` as an exception
(modelled by the `.err .writeErr` result), and the partial transcript
accumulated so far (`[("PATIENT", "hi")]`) is carried by the exception,
not returned. -/
theorem claim_c3_counterexample :
    (run_episode ⟨5, 100⟩ odOK wfAll 0 (charTrace "Patient: hi\nDoctor".data 0)).1 =
      .err .writeErr { history := [("PATIENT", "hi".data)],
                       tail := "Patient: hi\nDoctor".data, cur_line := "Doctor".data,
                       rounds := 0, t_last := 0, writes := [] } ∧
    reasonOf (run_episode ⟨5, 100⟩ odOK wfAll 0
        (charTrace "Patient: hi\nDoctor".data 0)).1 ≠ some .STREAM_CLOSED := by
  decide

/-- C3 amended: a failing channel write is not locally recovered: whatever
reply the reply source produces, the run raises (no end reason is
recorded, the partial transcript is not returned), and the `finally`
block still stops the channel before control leaves the driver. -/
theorem claim_c3_amended (reply : List Char) :
    (run_episode ⟨5, 100⟩ (fun _ => .ok reply) wfAll 0
        (charTrace "Patient: hi\nDoctor".data 0)).1 =
      .err .writeErr { history := [("PATIENT", "hi".data)],
                       tail := "Patient: hi\nDoctor".data, cur_line := "Doctor".data,
                       rounds := 0, t_last := 0, writes := [] } ∧
    (run_episode ⟨5, 100⟩ (fun _ => .ok reply) wfAll 0
        (charTrace "Patient: hi\nDoctor".data 0)).2.running = false :=
  ⟨rfl, rfl⟩

/-- C4 counterexample: on the channel output `"thank you\n"` the driver
writes one reply (the end-signal reply) yet the round counter stays `0`,
so the counter does not count every reply sent. -/
theorem claim_c4_counterexample :
    reasonOf (run_episode ⟨5, 100⟩ odOK wfNone 0 (charTrace "thank you\n".data 0)).1 =
      some .END_SIGNAL ∧
    (stOf (run_episode ⟨5, 100⟩ odOK wfNone 0 (charTrace "thank you\n".data 0)).1).writes.length = 1 ∧
    (stOf (run_episode ⟨5, 100⟩ odOK wfNone 0 (charTrace "thank you\n".data 0)).1).rounds = 0 := by
  decide

/-- C4 amended: the round counter counts exactly the replies written on
the mid-line prompt path; the extra reply written when an end-of-session
line is observed is not counted.  Hence at any exit the number of written
replies equals the counter, except that an `END_SIGNAL` exit has exactly
one more write than rounds. -/
theorem claim_c4_amended (cfg : Config) (onDoc : ReplySource) (wf : Nat → Bool)
    (t0 : Nat) (evs : List REv) :
    (∀ st r, (run_episode cfg onDoc wf t0 evs).1 = .done st r →
        (r = .END_SIGNAL → st.writes.length = st.rounds + 1) ∧
        (r ≠ .END_SIGNAL → st.writes.length = st.rounds)) ∧
    (∀ e st, (run_episode cfg onDoc wf t0 evs).1 = .err e st →
        st.writes.length = st.rounds) := by
  have h := loop_wlen cfg onDoc wf evs (initSt t0) rfl
  exact ⟨h.1, h.2.1⟩

/-- C4 witness: the amended claim applied to the `"thank you\n"` run. -/
theorem claim_c4_witness : c4st.writes.length = c4st.rounds + 1 :=
  ((claim_c4_amended ⟨5, 100⟩ odOK wfNone 0 (charTrace "thank you\n".data 0)).1
      c4st .END_SIGNAL (by decide)).1 rfl

/-- C5: for every session run with `max_rounds ≥ 1`, the round counter at
a normal termination is at most `max_rounds`, and a `ROUND_LIMIT` exit
reaches it exactly. -/
theorem claim_c5 (cfg : Config) (onDoc : ReplySource) (wf : Nat → Bool)
    (t0 : Nat) (evs : List REv) (st : LoopSt) (r : EndReason)
    (hmax : 1 ≤ cfg.max_rounds)
    (hrun : (run_episode cfg onDoc wf t0 evs).1 = .done st r) :
    st.rounds ≤ cfg.max_rounds ∧ (r = .ROUND_LIMIT → st.rounds = cfg.max_rounds) :=
  loop_rounds cfg onDoc wf evs (initSt t0) hmax st r hrun

/-- C5 witness: the round-limit bound on the `"Doctor"` prompt run with a
single allowed round. -/
theorem claim_c5_witness :
    c5st.rounds ≤ 1 ∧ (EndReason.ROUND_LIMIT = .ROUND_LIMIT → c5st.rounds = 1) :=
  claim_c5 ⟨1, 100⟩ odOK wfNone 0 (charTrace "Doctor".data 0) c5st .ROUND_LIMIT
    (by decide) (by decide)

/-- C6 counterexample: after the channel emits `"Doctor:"` — a mid-line
prompt that triggers a reply (one write recorded) — the line accumulator
still holds the whole prompt fragment instead of being empty. -/
theorem claim_c6_counterexample :
    (stOf (run_episode ⟨2, 100⟩ odOK wfNone 0 (charTrace "Doctor:".data 0)).1).writes.length = 1 ∧
    (stOf (run_episode ⟨2, 100⟩ odOK wfNone 0 (charTrace "Doctor:".data 0)).1).cur_line =
      "Doctor:".data := by
  decide

/-- C6 amended: the accumulator is cleared when a newline completes a
non-end line, but a mid-line prompt trigger clears only the trailing
buffer — the accumulator keeps the prompt fragment, which can therefore
reappear inside the next completed line's classification. -/
theorem claim_c6_amended (cfg : Config) (onDoc : ReplySource) (wf : Nat → Bool)
    (st st1 st2 : LoopSt)
    (htp : tail_has_prompt st.tail = true)
    (hp : promptStep cfg onDoc wf st = .cont st1)
    (hl : lineStep onDoc wf st '\n' = .cont st2) :
    st1.cur_line = st.cur_line ∧ st1.tail = [] ∧ st2.cur_line = [] := by
  have hp' : promptSend cfg onDoc wf st = .cont st1 := by
    unfold promptStep at hp
    rwa [if_pos htp] at hp
  obtain ⟨reply, _, _, _, _, _, htl, hcl, _⟩ := promptSend_cont cfg onDoc wf st st1 hp'
  obtain ⟨_, _, _, hcl2⟩ := lineStep_cont onDoc wf st '\n' st2 hl
  exact ⟨hcl, htl, hcl2 rfl⟩

/-- C6 witness: the amended claim at the `"Doctor"` prompt state. -/
theorem claim_c6_witness :
    c6st1.cur_line = c6st.cur_line ∧ c6st1.tail = [] ∧ c6st2.cur_line = [] :=
  claim_c6_amended ⟨2, 100⟩ odOK wfNone c6st c6st1 c6st2 (by decide) (by decide) (by decide)

/-- C7 counterexample: the completed line `"Patient: thank you"` is both
appended to the transcript as a peer utterance and treated as an
end-of-session signal (triggering the final reply), so a line can have
both effects, not exactly one. -/
theorem claim_c7_counterexample :
    reasonOf (run_episode ⟨5, 100⟩ odOK wfNone 0
        (charTrace "Patient: thank you\n".data 0)).1 = some .END_SIGNAL ∧
    (stOf (run_episode ⟨5, 100⟩ odOK wfNone 0
        (charTrace "Patient: thank you\n".data 0)).1).history =
      [("PATIENT", "thank you".data), ("DOCTOR", "ok".data)] := by
  decide

/-- C7 amended: the peer-utterance check and the end-of-session check on a
completed line are independent: a line matching both is first appended as
a peer utterance and then ends the session with the final reply appended
after it. -/
theorem claim_c7_amended (onDoc : ReplySource) (wf : Nat → Bool) (st : LoopSt)
    (u reply : List Char)
    (hm : PATIENT_LINE_match st.cur_line = some u)
    (he : is_end_line st.cur_line = true)
    (hod : onDoc (st.history ++ [("PATIENT", u)]) = .ok reply)
    (hwf : wf st.writes.length = false) :
    lineStep onDoc wf st '\n' =
      .halt (.done { st with
        history := st.history ++ [("PATIENT", u), ("DOCTOR", reply)],
        writes := st.writes ++ [rstrip reply ++ ['\n']] } .END_SIGNAL) := by
  have h1 : patientPart st = { st with history := st.history ++ [("PATIENT", u)] } := by
    unfold patientPart
    rw [hm]
  unfold lineStep
  rw [if_pos rfl, if_pos he, h1]
  unfold endPart doWrite
  simp only [hod, hwf]
  simp [List.append_assoc]

/-- C7 witness: the amended claim at the `"Patient: thank you"` line. -/
theorem claim_c7_witness :
    lineStep odOK wfNone c7st '\n' =
      .halt (.done { c7st with
        history := c7st.history ++ [("PATIENT", "thank you".data), ("DOCTOR", "ok".data)],
        writes := c7st.writes ++ [rstrip "ok".data ++ ['\n']] } .END_SIGNAL) :=
  claim_c7_amended odOK wfNone c7st "thank you".data "ok".data
    (by decide) (by decide) rfl rfl

/-- C8: every string the driver writes to the channel is exactly some
reply of the reply source with its trailing whitespace removed and one
newline appended — on the mid-line prompt path and on the end-of-session
path alike, since both write through the same `doWrite`. -/
theorem claim_c8 (cfg : Config) (onDoc : ReplySource) (wf : Nat → Bool) (t0 : Nat)
    (evs : List REv) (w : List Char)
    (hw : w ∈ (stOf (run_episode cfg onDoc wf t0 evs).1).writes) :
    ∃ hist reply, onDoc hist = .ok reply ∧ w = rstrip reply ++ ['\n'] := by
  have h := loop_writesOk cfg onDoc wf evs (initSt t0)
    (by intro w0 hw0; simp [initSt] at hw0)
  exact h w hw

set_option maxRecDepth 8000 in
/-- C8 witness: the written line of the `"Doctor"` prompt run. -/
theorem claim_c8_witness :
    ∃ hist reply, odOK hist = .ok reply ∧ "ok\n".data = rstrip reply ++ ['\n'] :=
  claim_c8 ⟨1, 100⟩ odOK wfNone 0 (charTrace "Doctor".data 0) "ok\n".data (by decide)

/-- C9: stopping the channel is idempotent and safe: `terminate` is a
total function (the source swallows every exception), terminating twice
equals terminating once, and on every path of every session run — normal
end, timeout, exception — the returned process handle has been terminated
before `run_episode` returns (the `finally` block). -/
theorem claim_c9 :
    (∀ p, terminate (terminate p) = terminate p) ∧
    (∀ (cfg : Config) (onDoc : ReplySource) (wf : Nat → Bool) (t0 : Nat) (evs : List REv),
        (run_episode cfg onDoc wf t0 evs).2.running = false) := by
  constructor
  · intro p
    unfold terminate
    by_cases h : p.running = true
    · simp [h]
    · simp [h]
  · intro cfg onDoc wf t0 evs
    rfl

set_option maxRecDepth 8000 in
/-- C10 counterexample: a trailing buffer of `"doctor"` followed by two
hundred blanks has a right-stripped form ending in the word `doctor`, yet
the classifier answers `false`: the 200-character window is cut before
stripping, so only whitespace is inspected. -/
theorem claim_c10_counterexample :
    rstrip ("doctor".data ++ List.replicate 200 ' ') = "doctor".data ∧
    tail_has_prompt ("doctor".data ++ List.replicate 200 ' ') = false := by
  decide

/-- C10 amended: whenever the right-stripped form of the last two hundred
characters of the trailing buffer ends with `doctor` in any letter case —
mid-sentence occurrences included, with colon, bracketed percentage and
any label boundary all optional — the tail-prompt classifier answers
`true`. -/
theorem claim_c10_amended (tail : List Char)
    (h : lc (takeLast 6 (rstrip (takeLast 200 tail))) = "doctor".data) :
    tail_has_prompt tail = true := by
  have hc : (lc (takeLast 6 (rstrip (takeLast 200 tail)))).length = 6 := by
    rw [h]
    decide
  have hlen : 6 ≤ (rstrip (takeLast 200 tail)).length := by
    simp only [lc, List.length_map, takeLast_length] at hc
    omega
  have hA : afterDoctor (rstrip (takeLast 200 tail)) = true := by
    unfold afterDoctor dropSuffixCI
    have hd6 : ("doctor".data).length = 6 := by decide
    have hlc : lc "doctor".data = "doctor".data := by decide
    rw [hd6, hlc]
    rw [if_pos ⟨h, hlen⟩]
    rfl
  have hA3 : matchA3 (rstrip (takeLast 200 tail)) = true := by
    unfold matchA3
    rw [hA]
    simp
  unfold tail_has_prompt PROMPT_TAIL_search
  rw [rstrip_idem, hA3]
  simp

/-- C10 witness: a buffer ending with a mid-sentence, colon-free,
upper-case `DOCTOR` triggers the classifier. -/
theorem claim_c10_witness :
    lc (takeLast 6 (rstrip (takeLast 200 "They sent a DOCTOR".data))) = "doctor".data ∧
    tail_has_prompt "They sent a DOCTOR".data = true :=
  ⟨by decide, claim_c10_amended "They sent a DOCTOR".data (by decide)⟩

end AgentClinic
